import Mathlib

/-!
Shallow embedding of the `withTableSorting` higher-order component
(`src/components/Table/hoc/withTableSorting/withTableSorting.tsx`):
a sort controller that wraps a table component, tracks a multi-key
sort state (controlled or uncontrolled), computes a sorted view of the
data and decorates sortable column headers.

Rows are an abstract type `I`; indexing a row by a column identifier
(the JavaScript expression `item[columnId]`) is an explicit parameter
`val : I → String → JSVal`.  JavaScript values reachable by the generic
comparator are modelled by `JSVal` (numbers and `NaN`), with strict
equality `===` and the native relational `>` modelled by `jsStrictEq`
and `jsGt`.  The stable `Array.prototype.sort` on a fresh `slice()` is
modelled by `List.mergeSort` on the list value.
-/

namespace WithTableSorting

/-- `type ColumnSortOrder = 'asc' | 'desc'`. -/
inductive ColumnSortOrder where
  | asc
  | desc
deriving DecidableEq, Repr

/-- `interface ColumnSortState { column: string; order: ColumnSortOrder }`. -/
structure ColumnSortState where
  column : String
  order : ColumnSortOrder
deriving DecidableEq, Repr

/-- `type SortState = ColumnSortState[]`. -/
abbrev SortState := List ColumnSortState

/-- JavaScript values reachable by the generic fallback comparator:
numbers (modelled by integers) and `NaN`. -/
inductive JSVal where
  | num (n : Int)
  | nan
deriving DecidableEq, Repr

/-- JavaScript strict equality `===` on `JSVal`: two numbers are equal
when their values are; `NaN` is equal to nothing, itself included. -/
def jsStrictEq : JSVal → JSVal → Bool
  | .num a, .num b => a == b
  | _, _ => false

/-- JavaScript native relational `>` on `JSVal`: number comparison;
every comparison involving `NaN` is false. -/
def jsGt : JSVal → JSVal → Bool
  | .num a, .num b => decide (b < a)
  | _, _ => false

/-- Column alignment (only `right` matters to the sort header). -/
inductive Align where
  | left
  | center
  | right
deriving DecidableEq, Repr

/-- The `meta.sort` field of a column: either an explicit comparator
function (two rows to a three-way integer) or the boolean flag `true`
requesting the generic fallback comparison.  A missing or falsy
`meta.sort` is `Option.none` at the use site. -/
inductive SortCapability (I : Type) where
  | fn (f : I → I → Int)
  | flag

/-- One fragment of the decorated header rendering. -/
inductive HeaderPart where
  | content (origin : String)
  | spacer
  | indicator (order : ColumnSortOrder)

/-- The rendered decorated header: the `active` modifier, the ordered
fragments (possibly reversed for right alignment) and the column the
attached click handler is bound to. -/
structure HeaderView where
  active : Bool
  parts : List HeaderPart
  clickColumn : String

/-- A column `name`: either the configured string content or, after
decoration, a render function reading the current sort state. -/
inductive ColumnName where
  | str (s : String)
  | render (f : SortState → HeaderView)

/-- The `meta` object of a column descriptor, with the fields the
controller reads (`sort`, `defaultSortOrder`) and the `_originalName`
field the decoration writes. -/
structure ColumnMeta (I : Type) where
  sort : Option (SortCapability I) := none
  defaultSortOrder : Option ColumnSortOrder := none
  originalName : Option ColumnName := none

/-- `TableColumnConfig`: the fields of a column descriptor the
controller reads. -/
structure TableColumnConfig (I : Type) where
  id : String
  name : ColumnName
  align : Option Align := none
  meta : Option (ColumnMeta I) := none

/-- The props of the wrapping component: the table data and columns plus
the sorting configuration.  The presence of the `onSortStateChange`
callback is modelled by a boolean; its invocation is the first component
of the result of `handleSortStateChange`. -/
structure ComponentProps (I : Type) where
  data : List I
  columns : List (TableColumnConfig I)
  defaultSortState : Option SortState := none
  sortState : Option SortState := none
  onSortStateChange : Bool := false

variable {I : Type}

/-- `defaultCompareFunction(itemA, itemB, columnId)`: `0` on strict
equality of the two indexed values, else `1` when the first is greater
under the native relational operator, else `-1`. -/
def defaultCompareFunction (val : I → String → JSVal) (itemA itemB : I)
    (columnId : String) : Int :=
  if jsStrictEq (val itemA columnId) (val itemB columnId) then 0
  else if jsGt (val itemA columnId) (val itemB columnId) then 1 else -1

/-- `isControlledState()`: `Boolean(sortState && onSortStateChange)` —
true exactly when both the external sort state prop and the change
callback are supplied. -/
def isControlledState (p : ComponentProps I) : Bool :=
  p.sortState.isSome && p.onSortStateChange

/-- `getSortState()`: the external prop when controlled, the internal
component state otherwise. -/
def getSortState (p : ComponentProps I) (internalSort : SortState) : SortState :=
  if isControlledState p then p.sortState.getD [] else internalSort

/-- `handleSortStateChange(newSortState)`: when controlled, invoke the
external callback with the new state (first component) and leave the
internal state alone; otherwise overwrite the internal state (second
component). -/
def handleSortStateChange (p : ComponentProps I) (internalSort : SortState)
    (newSortState : SortState) : Option SortState × SortState :=
  if isControlledState p then (some newSortState, internalSort)
  else (none, newSortState)

/-- `getColumnDefaultSortOrder(column)`:
`column.meta?.defaultSortOrder || 'asc'`. -/
def getColumnDefaultSortOrder (column : TableColumnConfig I) : ColumnSortOrder :=
  (column.meta.bind (·.defaultSortOrder)).getD .asc

/-- `getNextSortForColumn(column, currentState)`: the 3-state cycle over
`[default, opposite, none]` seeded by the column's default order; the
entry after the current one (out-of-range indexing yields the falsy
`undefined`, hence the empty result). -/
def getNextSortForColumn (column : TableColumnConfig I)
    (currentState : Option ColumnSortState) : List ColumnSortState :=
  let defaultOrder := getColumnDefaultSortOrder column
  let orderStack : List (Option ColumnSortOrder) :=
    if defaultOrder = .desc then [some .desc, some .asc, none]
    else [some .asc, some .desc, none]
  let currentIndex := orderStack.indexOf (currentState.map (·.order))
  let nextIndex := (currentIndex + 1) % orderStack.length
  match orderStack.getD nextIndex none with
  | none => []
  | some nextOrder => [{ column := column.id, order := nextOrder }]

/-- `handleColumnSortClick(column, event)`, as a function of the click's
shift modifier and the current sort state, returning the next sort
state handed to `handleSortStateChange`. -/
def handleColumnSortClick (column : TableColumnConfig I) (shiftKey : Bool)
    (sortState : SortState) : SortState :=
  let currentStateIndex := sortState.findIdx? (fun s => s.column == column.id)
  let currentState := currentStateIndex.bind (fun i => sortState[i]?)
  let nextColumnSort := getNextSortForColumn column currentState
  if !shiftKey then
    nextColumnSort
  else
    match currentStateIndex with
    | some i => sortState.take i ++ sortState.drop (i + 1) ++ nextColumnSort
    | none => sortState ++ nextColumnSort

/-- The per-key three-way comparison of lines 89–92: the column's
comparator when it is a function, the generic fallback when it is the
boolean flag. -/
def capCompare (val : I → String → JSVal) (cap : SortCapability I)
    (itemA itemB : I) (columnId : String) : Int :=
  match cap with
  | .fn f => f itemA itemB
  | .flag => defaultCompareFunction val itemA itemB columnId

/-- The comparator closure of `getSortedData` (lines 78–99): walk the
sort entries in order; an entry whose column has no (truthy) `meta.sort`
is skipped; the first nonzero per-key comparison is returned, negated
for a descending entry; exhaustion yields `0`. -/
def compareItems (val : I → String → JSVal)
    (columns : List (TableColumnConfig I)) :
    SortState → I → I → Int
  | [], _, _ => 0
  | state :: rest, itemA, itemB =>
    let column := columns.find? (fun c => c.id == state.column)
    match column.bind (fun c => c.meta.bind (·.sort)) with
    | none => compareItems val columns rest itemA itemB
    | some compareFunction =>
      let compareValue := capCompare val compareFunction itemA itemB state.column
      if compareValue ≠ 0 then
        if state.order = .asc then compareValue else -compareValue
      else compareItems val columns rest itemA itemB

/-- `getSortedData()`: the original data when controlled or when the
current sort state is empty; otherwise a stable sort of a fresh copy of
the data by the chained comparator. -/
def getSortedData (val : I → String → JSVal) (p : ComponentProps I)
    (internalSort : SortState) : List I :=
  let sortState := getSortState p internalSort
  if isControlledState p || sortState.length == 0 then p.data
  else p.data.mergeSort
    (fun itemA itemB => decide (compareItems val p.columns sortState itemA itemB ≤ 0))

/-- Modelled from the spec: `Table.getHeadCellContent` (the wrapped
`Table` component is not part of the excerpt) extracts a column's
configured header content; the configured string when the name is one. -/
def getHeadCellContent (column : TableColumnConfig I) : String :=
  match column.name with
  | .str s => s
  | .render _ => column.id

/-- The decorated header render closure (lines 115–152), as a function
of the sort state read at render time: the current order for this
column (only consulted on a non-empty state), the content–spacer–
indicator row (reversed for right alignment), the `active` modifier set
exactly when an explicit entry for this column exists. -/
def renderSortHeader (column : TableColumnConfig I) (sortState : SortState) :
    HeaderView :=
  let sortOrder : Option ColumnSortOrder :=
    if sortState.length > 0 then
      (sortState.find? (fun s => s.column == column.id)).map (·.order)
    else none
  let content : List HeaderPart :=
    [ .content (getHeadCellContent column), .spacer,
      .indicator (sortOrder.getD (getColumnDefaultSortOrder column)) ]
  let content := if column.align = some .right then content.reverse else content
  { active := sortOrder.isSome, parts := content, clickColumn := column.id }

/-- `enhanceColumns(columns)` (memoization dropped, it is keyed on the
argument's identity): a column whose `meta` and `meta.sort` are truthy
is decorated — `_originalName` recorded, `name` replaced by the header
render closure — and every other column passes through unchanged. -/
def enhanceColumns (columns : List (TableColumnConfig I)) :
    List (TableColumnConfig I) :=
  columns.map fun column =>
    match column.meta with
    | some meta =>
      if meta.sort.isSome then
        { column with
          meta := some { meta with originalName := some column.name },
          name := .render (renderSortHeader column) }
      else column
    | none => column

/-! Derived notions and helper lemmas. -/

/-- The opposite of a sort order. -/
def flipOrder : ColumnSortOrder → ColumnSortOrder
  | .asc => .desc
  | .desc => .asc

lemma flipOrder_ne_self : ∀ o : ColumnSortOrder, flipOrder o ≠ o := by
  intro o
  cases o <;> simp [flipOrder]

/-- Closed characterization of the 3-state cycle: the opposite of the
default after the default, nothing after the opposite, the default
otherwise. -/
lemma getNextSortForColumn_eq (column : TableColumnConfig I)
    (cs : Option ColumnSortState) :
    getNextSortForColumn column cs =
      if cs.map (·.order) = some (getColumnDefaultSortOrder column) then
        [⟨column.id, flipOrder (getColumnDefaultSortOrder column)⟩]
      else if cs.map (·.order) = some (flipOrder (getColumnDefaultSortOrder column)) then
        []
      else [⟨column.id, getColumnDefaultSortOrder column⟩] := by
  rcases hd : getColumnDefaultSortOrder column with _ | _ <;>
    rcases cs with _ | ⟨c, o⟩ <;> try rcases o with _ | _
  all_goals simp [getNextSortForColumn, hd, flipOrder]
  all_goals rfl

/-- The next sort for a column mentions only that column and holds at
most one entry. -/
lemma getNextSortForColumn_shape (column : TableColumnConfig I)
    (cs : Option ColumnSortState) :
    (getNextSortForColumn column cs).length ≤ 1
      ∧ ∀ e ∈ getNextSortForColumn column cs, e.column = column.id := by
  rw [getNextSortForColumn_eq]
  split
  · simp
  split
  · simp
  · simp

/-- Looking an index up with `findIdx?` and indexing by it is `find?`. -/
lemma findIdx?_bind_getElem? {α : Type} (p : α → Bool) :
    ∀ l : List α, (l.findIdx? p).bind (fun i => l[i]?) = l.find? p := by
  intro l
  induction l with
  | nil => rfl
  | cons a t ih =>
    by_cases h : p a
    · simp [List.findIdx?_cons, List.find?_cons, h]
    · cases h2 : t.findIdx? p with
      | none =>
        rw [h2] at ih
        simp at ih
        simp [List.findIdx?_cons, List.find?_cons, h, List.findIdx?_succ, h2, ← ih]
      | some i =>
        rw [h2] at ih
        simp at ih
        simp [List.findIdx?_cons, List.find?_cons, h, List.findIdx?_succ, h2, ← ih]

/-- A click without the shift modifier hands the column's next cycle
entry to the state commit, whatever the prior state held. -/
lemma handleColumnSortClick_false (column : TableColumnConfig I) (prior : SortState) :
    handleColumnSortClick column false prior
      = getNextSortForColumn column (prior.find? (fun s => s.column == column.id)) := by
  unfold handleColumnSortClick
  simp [findIdx?_bind_getElem?]

/-- Removing the element found by `findIdx?` by `take`/`drop` is the
filter dropping the matches, when at most one element can match. -/
lemma take_append_drop_eq_filter {α : Type} (p : α → Bool) :
    ∀ (l : List α) (i : Nat), l.findIdx? p = some i →
      l.Pairwise (fun a b => p a = true → p b = false) →
      l.take i ++ l.drop (i + 1) = l.filter (fun a => !(p a)) := by
  intro l
  induction l with
  | nil => intro i h _; simp [List.findIdx?] at h
  | cons a t ih =>
    intro i hidx hpw
    rw [List.findIdx?_cons] at hidx
    by_cases h : p a
    · rw [if_pos h] at hidx
      injection hidx with hi
      subst hi
      have hall : ∀ b ∈ t, p b = false := fun b hb => (List.pairwise_cons.mp hpw).1 b hb h
      have hfilter : t.filter (fun a => !(p a)) = t := by
        rw [List.filter_eq_self]
        intro b hb
        simp [hall b hb]
      simp [List.filter_cons, h, hfilter]
    · rw [if_neg h, List.findIdx?_succ] at hidx
      cases h2 : t.findIdx? p with
      | none => rw [h2] at hidx; simp at hidx
      | some j =>
        rw [h2] at hidx
        have hi : j + 1 = i := by simpa using hidx
        subst hi
        have ht := ih j h2 (List.pairwise_cons.mp hpw).2
        simp [List.filter_cons, h, ht]

/-- A shift-modified click removes the clicked column's entry from its
position and appends the column's next cycle entry at the end, leaving
every other entry in place; stated for states without duplicate column
identifiers, the component's own invariant. -/
lemma handleColumnSortClick_shift (column : TableColumnConfig I) (prior : SortState)
    (hnd : prior.Pairwise (fun s t => s.column ≠ t.column)) :
    handleColumnSortClick column true prior
      = prior.filter (fun s => !(s.column == column.id))
        ++ getNextSortForColumn column (prior.find? (fun s => s.column == column.id)) := by
  have hpw : prior.Pairwise (fun s t =>
      (s.column == column.id) = true → (t.column == column.id) = false) := by
    refine hnd.imp ?_
    intro s t hst h1
    rw [beq_iff_eq] at h1
    rw [beq_eq_false_iff_ne]
    intro ht
    exact hst (h1.trans ht.symm)
  cases hidx : prior.findIdx? (fun s => s.column == column.id) with
  | none =>
    have hfind : prior.find? (fun s => s.column == column.id) = none := by
      rw [List.find?_eq_none]
      intro x hx
      exact fun hpx => by simp [List.findIdx?_eq_none_iff.mp hidx x hx] at hpx
    have hfilter : prior.filter (fun s => !(s.column == column.id)) = prior := by
      rw [List.filter_eq_self]
      intro x hx
      simp [List.findIdx?_eq_none_iff.mp hidx x hx]
    unfold handleColumnSortClick
    simp [hidx, hfind, hfilter]
  | some i =>
    have hcur : (prior.findIdx? (fun s => s.column == column.id)).bind
        (fun j => prior[j]?) = prior.find? (fun s => s.column == column.id) :=
      findIdx?_bind_getElem? _ prior
    rw [hidx] at hcur
    simp only [Option.some_bind] at hcur
    unfold handleColumnSortClick
    rw [hidx]
    simp only [Option.some_bind, Bool.not_true, Bool.false_eq_true, if_false]
    rw [hcur, take_append_drop_eq_filter _ prior i hidx hpw]

/-! Concrete fixtures used by the witnesses. -/

/-- A sortable column over unit rows, generic comparator, default order
left unset. -/
def colX : TableColumnConfig Unit :=
  { id := "X", name := .str "X", meta := some { sort := some .flag } }

/-- A partially configured props record: external sort state supplied,
change callback missing. -/
def propsPartial : ComponentProps Unit :=
  { data := [()], columns := [], sortState := some [⟨"S", .asc⟩],
    onSortStateChange := false }

/-- A fully controlled props record with a non-empty sort state. -/
def propsControlled : ComponentProps Unit :=
  { data := [(), ()], columns := [], sortState := some [⟨"S", .asc⟩],
    onSortStateChange := true }

/-! The claims. -/

/-- C2: a header click without the shift modifier replaces the whole
sort state by at most one entry for the clicked column, computed by the
3-state cycle seeded by the column's default order: with no prior entry
for the column the state becomes `[{column, default}]`, and successive
clicks continue `[{column, flip default}]` and then the empty state. -/
theorem unmodifiedClick_replaces_with_cycle (column : TableColumnConfig I) :
    (∀ prior : SortState,
      (handleColumnSortClick column false prior).length ≤ 1
        ∧ ∀ e ∈ handleColumnSortClick column false prior, e.column = column.id)
    ∧ (∀ prior : SortState, (∀ s ∈ prior, s.column ≠ column.id) →
        handleColumnSortClick column false prior
          = [⟨column.id, getColumnDefaultSortOrder column⟩])
    ∧ handleColumnSortClick column false
        [⟨column.id, getColumnDefaultSortOrder column⟩]
        = [⟨column.id, flipOrder (getColumnDefaultSortOrder column)⟩]
    ∧ handleColumnSortClick column false
        [⟨column.id, flipOrder (getColumnDefaultSortOrder column)⟩] = [] := by
  refine ⟨?_, ?_, ?_, ?_⟩
  · intro prior
    rw [handleColumnSortClick_false]
    exact getNextSortForColumn_shape column _
  · intro prior hno
    rw [handleColumnSortClick_false]
    have hfind : prior.find? (fun s => s.column == column.id) = none := by
      rw [List.find?_eq_none]
      intro x hx
      simp [hno x hx]
    rw [hfind, getNextSortForColumn_eq]
    simp
  · rw [handleColumnSortClick_false]
    have hfind : List.find? (fun (s : ColumnSortState) => s.column == column.id)
        ([⟨column.id, getColumnDefaultSortOrder column⟩] : SortState)
        = some ⟨column.id, getColumnDefaultSortOrder column⟩ := by
      simp [List.find?_cons]
    rw [hfind, getNextSortForColumn_eq]
    simp
  · rw [handleColumnSortClick_false]
    have hfind : List.find? (fun (s : ColumnSortState) => s.column == column.id)
        ([⟨column.id, flipOrder (getColumnDefaultSortOrder column)⟩] : SortState)
        = some ⟨column.id, flipOrder (getColumnDefaultSortOrder column)⟩ := by
      simp [List.find?_cons]
    rw [hfind, getNextSortForColumn_eq]
    simp [flipOrder_ne_self (getColumnDefaultSortOrder column)]

/-- Witness for C2: on the concrete column `colX` (default order
ascending), a plain click on a foreign state yields the single
ascending entry, and two further clicks cycle to descending and then to
the empty state. -/
theorem unmodifiedClick_replaces_with_cycle_witness :
    handleColumnSortClick colX false [⟨"Y", .asc⟩] = [⟨"X", .asc⟩]
    ∧ handleColumnSortClick colX false [⟨"X", .asc⟩] = [⟨"X", .desc⟩]
    ∧ handleColumnSortClick colX false [⟨"X", .desc⟩] = [] :=
  ⟨(unmodifiedClick_replaces_with_cycle colX).2.1 [⟨"Y", .asc⟩] (by decide),
   (unmodifiedClick_replaces_with_cycle colX).2.2.1,
   (unmodifiedClick_replaces_with_cycle colX).2.2.2⟩

/-- C3: a shift-modified click removes any existing entry for the
clicked column from its position and appends the column's next cycle
entry (none when the cycle reaches the unsorted step) at the end,
leaving the relative order of all other entries unchanged; in
particular shift-clicking a fresh column `Y` over `[{X, asc}]` yields
`[{X, asc}, {Y, defaultOrder Y}]`. -/
theorem shiftClick_moves_column_to_lowest_priority
    (column : TableColumnConfig I) (prior : SortState)
    (hnd : prior.Pairwise (fun s t => s.column ≠ t.column)) :
    handleColumnSortClick column true prior
      = prior.filter (fun s => !(s.column == column.id))
        ++ getNextSortForColumn column (prior.find? (fun s => s.column == column.id))
    ∧ (∀ (colY : TableColumnConfig I) (xid : String), xid ≠ colY.id →
        handleColumnSortClick colY true [⟨xid, .asc⟩]
          = [⟨xid, .asc⟩, ⟨colY.id, getColumnDefaultSortOrder colY⟩]) := by
  refine ⟨handleColumnSortClick_shift column prior hnd, ?_⟩
  intro colY xid hne
  rw [handleColumnSortClick_shift colY [⟨xid, .asc⟩] (by simp)]
  have hfind : List.find? (fun (s : ColumnSortState) => s.column == colY.id)
      ([⟨xid, .asc⟩] : SortState) = none := by
    rw [List.find?_eq_none]
    intro x hx
    simp at hx
    subst hx
    simp [hne]
  rw [hfind, getNextSortForColumn_eq]
  simp [hne]

/-- Witness for C3: shift-clicking the active middle column `X` of a
three-key state re-appends it, in its next cycle position, behind the
untouched keys `Y` and `Z`. -/
theorem shiftClick_moves_column_to_lowest_priority_witness :
    handleColumnSortClick colX true [⟨"Y", .asc⟩, ⟨"X", .asc⟩, ⟨"Z", .desc⟩]
      = [⟨"Y", .asc⟩, ⟨"Z", .desc⟩, ⟨"X", .desc⟩] :=
  (shiftClick_moves_column_to_lowest_priority colX
    [⟨"Y", .asc⟩, ⟨"X", .asc⟩, ⟨"Z", .desc⟩] (by decide)).1

/-- C4: when the component is controlled, or the current sort state is
the empty sequence, `getSortedData` returns the input data unchanged. -/
theorem getSortedData_controlled_or_empty_returns_data
    (val : I → String → JSVal) (p : ComponentProps I) (internalSort : SortState)
    (h : isControlledState p = true ∨ (getSortState p internalSort).length = 0) :
    getSortedData val p internalSort = p.data := by
  unfold getSortedData
  rcases h with h | h
  · simp [h]
  · simp [h]

/-- Witness for C4: a fully controlled props record with a non-empty
external sort state still gets its data back untouched. -/
theorem getSortedData_controlled_witness :
    getSortedData (fun _ _ => JSVal.nan) propsControlled [] = [(), ()] :=
  getSortedData_controlled_or_empty_returns_data _ propsControlled [] (Or.inl rfl)

/-- C5: from a sort state with pairwise distinct column identifiers,
every click transition — with or without the shift modifier — again
produces a state with pairwise distinct column identifiers. -/
theorem click_preserves_distinct_columns (column : TableColumnConfig I)
    (shiftKey : Bool) (prior : SortState)
    (hnd : prior.Pairwise (fun s t => s.column ≠ t.column)) :
    (handleColumnSortClick column shiftKey prior).Pairwise
      (fun s t => s.column ≠ t.column) := by
  cases shiftKey with
  | false =>
    rw [handleColumnSortClick_false, getNextSortForColumn_eq]
    split
    · simp
    split
    · simp
    · simp
  | true =>
    rw [handleColumnSortClick_shift column prior hnd]
    rw [List.pairwise_append]
    refine ⟨hnd.filter _, ?_, ?_⟩
    · rw [getNextSortForColumn_eq]
      split
      · simp
      split
      · simp
      · simp
    · intro a ha b hb
      have ha2 : (!(a.column == column.id)) = true := (List.mem_filter.mp ha).2
      have hb2 : b.column = column.id :=
        (getNextSortForColumn_shape column _).2 b hb
      rw [hb2]
      intro hcontra
      rw [hcontra] at ha2
      simp at ha2

/-- Witness for C5: the three-key transition of the C3 witness keeps
the column identifiers pairwise distinct. -/
theorem click_preserves_distinct_columns_witness :
    (handleColumnSortClick colX true [⟨"Y", .asc⟩, ⟨"X", .asc⟩, ⟨"Z", .desc⟩]).Pairwise
      (fun s t => s.column ≠ t.column) :=
  click_preserves_distinct_columns colX true
    [⟨"Y", .asc⟩, ⟨"X", .asc⟩, ⟨"Z", .desc⟩] (by decide)

/-- C7: a column whose metadata carries no sort capability — no `meta`
at all, or no (truthy) `meta.sort` — passes through `enhanceColumns`
unmodified: no header decoration, no click handler, so a click on it
can never reach the sort-state transition. -/
theorem enhanceColumns_passes_nonsortable_through
    (columns : List (TableColumnConfig I)) (i : Nat) (c : TableColumnConfig I)
    (hc : columns[i]? = some c) (hns : c.meta.bind (·.sort) = none) :
    (enhanceColumns columns)[i]? = some c := by
  unfold enhanceColumns
  rw [List.getElem?_map, hc]
  rcases hmeta : c.meta with _ | m
  · simp [hmeta]
  · rw [hmeta] at hns
    simp only [Option.some_bind] at hns
    simp [hmeta, hns]

/-- Witness for C7: a column without metadata is returned exactly as
configured. -/
theorem enhanceColumns_passes_nonsortable_through_witness :
    (enhanceColumns [({ id := "P", name := .str "P" } : TableColumnConfig Unit)])[0]?
      = some { id := "P", name := .str "P" } :=
  enhanceColumns_passes_nonsortable_through _ 0 _ rfl rfl

/-- C8: the component is controlled exactly when both the external
`sortState` prop and the `onSortStateChange` callback are supplied;
with exactly one of the two supplied, state reads fall back to the
internal state and state commits write the internal state without
invoking any callback. -/
theorem isControlledState_iff_both_props (p : ComponentProps I)
    (internalSort newSort : SortState) :
    (isControlledState p = true ↔
      p.sortState.isSome = true ∧ p.onSortStateChange = true)
    ∧ (p.sortState.isSome = true ∧ p.onSortStateChange = false →
        getSortState p internalSort = internalSort
          ∧ handleSortStateChange p internalSort newSort = (none, newSort))
    ∧ (p.sortState.isSome = false ∧ p.onSortStateChange = true →
        getSortState p internalSort = internalSort
          ∧ handleSortStateChange p internalSort newSort = (none, newSort)) := by
  refine ⟨?_, ?_, ?_⟩
  · simp [isControlledState]
  · rintro ⟨h1, h2⟩
    constructor
    · simp [getSortState, isControlledState, h2]
    · simp [handleSortStateChange, isControlledState, h2]
  · rintro ⟨h1, h2⟩
    constructor
    · simp [getSortState, isControlledState, h1]
    · simp [handleSortStateChange, isControlledState, h1]

/-- Witness for C8: with the external state supplied but the callback
missing, reads return the internal state and commits rewrite it. -/
theorem isControlledState_iff_both_props_witness :
    getSortState propsPartial [⟨"X", .asc⟩] = [⟨"X", .asc⟩]
    ∧ handleSortStateChange propsPartial [⟨"X", .asc⟩] [] = (none, []) :=
  (isControlledState_iff_both_props propsPartial [⟨"X", .asc⟩] []).2.1 ⟨rfl, rfl⟩

/-- C10: the generic fallback comparator is total with values in
`{-1, 0, 1}`: `0` exactly on strict equality of the two column values,
`1` when the first value is greater under the native relational
operator, `-1` in every other case; for mutually incomparable values
such as `NaN` it returns `-1` for both argument orders, so it is not
antisymmetric. -/
theorem defaultCompareFunction_total_trichotomy
    (val : I → String → JSVal) (a b : I) (colId : String) :
    (defaultCompareFunction val a b colId = 0
      ∨ defaultCompareFunction val a b colId = 1
      ∨ defaultCompareFunction val a b colId = -1)
    ∧ (defaultCompareFunction val a b colId = 0 ↔
        jsStrictEq (val a colId) (val b colId) = true)
    ∧ (jsStrictEq (val a colId) (val b colId) = false →
        jsGt (val a colId) (val b colId) = true →
        defaultCompareFunction val a b colId = 1)
    ∧ (jsStrictEq (val a colId) (val b colId) = false →
        jsGt (val a colId) (val b colId) = false →
        defaultCompareFunction val a b colId = -1)
    ∧ (∀ n : Int,
        defaultCompareFunction (fun v _ => v) JSVal.nan (JSVal.num n) "c" = -1
          ∧ defaultCompareFunction (fun v _ => v) (JSVal.num n) JSVal.nan "c" = -1) := by
  refine ⟨?_, ?_, ?_, ?_, ?_⟩
  · unfold defaultCompareFunction
    split
    · exact Or.inl rfl
    split
    · exact Or.inr (Or.inl rfl)
    · exact Or.inr (Or.inr rfl)
  · unfold defaultCompareFunction
    split
    · simp_all
    · rename_i hne
      simp only [Bool.not_eq_true] at hne
      simp [hne]
      split <;> simp
  · intro h1 h2
    simp [defaultCompareFunction, h1, h2]
  · intro h1 h2
    simp [defaultCompareFunction, h1, h2]
  · intro n
    constructor <;> rfl

/-- Witness for C10: concrete number comparisons hit the `1` and `-1`
branches as stated. -/
theorem defaultCompareFunction_total_trichotomy_witness :
    defaultCompareFunction (fun (v : JSVal) _ => v) (JSVal.num 5) (JSVal.num 3) "c" = 1
    ∧ defaultCompareFunction (fun (v : JSVal) _ => v) (JSVal.num 2) (JSVal.num 3) "c" = -1 :=
  ⟨(defaultCompareFunction_total_trichotomy (fun v _ => v)
      (JSVal.num 5) (JSVal.num 3) "c").2.2.1 (by decide) (by decide),
   (defaultCompareFunction_total_trichotomy (fun v _ => v)
      (JSVal.num 2) (JSVal.num 3) "c").2.2.2.1 (by decide) (by decide)⟩

/-! Machinery for the sorting claims. -/

/-- A column with an explicit comparator function. -/
def mkFnColumn (id : String) (f : I → I → Int) : TableColumnConfig I :=
  { id := id, name := .str id, meta := some { sort := some (.fn f) } }

/-- An uncontrolled props record holding two comparator columns `A`
and `B`. -/
def twoColProps (data : List I) (f g : I → I → Int) : ComponentProps I :=
  { data := data, columns := [mkFnColumn "A" f, mkFnColumn "B" g] }

lemma compareItems_A_asc (val : I → String → JSVal) (f g : I → I → Int) (a b : I) :
    compareItems val [mkFnColumn "A" f, mkFnColumn "B" g] [⟨"A", .asc⟩] a b
      = f a b := by
  have h1 : compareItems val [mkFnColumn "A" f, mkFnColumn "B" g] [⟨"A", .asc⟩] a b
      = if f a b ≠ 0 then f a b else 0 := rfl
  rw [h1]
  by_cases h : f a b = 0 <;> simp [h]

lemma compareItems_A_desc (val : I → String → JSVal) (f g : I → I → Int) (a b : I) :
    compareItems val [mkFnColumn "A" f, mkFnColumn "B" g] [⟨"A", .desc⟩] a b
      = -(f a b) := by
  have h1 : compareItems val [mkFnColumn "A" f, mkFnColumn "B" g] [⟨"A", .desc⟩] a b
      = if f a b ≠ 0 then -(f a b) else 0 := rfl
  rw [h1]
  by_cases h : f a b = 0 <;> simp [h]

lemma compareItems_A_B (val : I → String → JSVal) (f g : I → I → Int) (a b : I) :
    compareItems val [mkFnColumn "A" f, mkFnColumn "B" g]
        [⟨"A", .asc⟩, ⟨"B", .asc⟩] a b
      = if f a b = 0 then g a b else f a b := by
  have h1 : compareItems val [mkFnColumn "A" f, mkFnColumn "B" g]
        [⟨"A", .asc⟩, ⟨"B", .asc⟩] a b
      = if f a b ≠ 0 then f a b else if g a b ≠ 0 then g a b else 0 := rfl
  rw [h1]
  by_cases h : f a b = 0 <;> by_cases h2 : g a b = 0 <;> simp [h, h2]

/-- Uncontrolled and non-empty: `getSortedData` is the stable sort of
the data by the chained comparator. -/
lemma getSortedData_uncontrolled (val : I → String → JSVal) (p : ComponentProps I)
    (internalSort : SortState) (hc : isControlledState p = false)
    (hne : internalSort ≠ []) :
    getSortedData val p internalSort
      = p.data.mergeSort
          (fun a b => decide (compareItems val p.columns internalSort a b ≤ 0)) := by
  unfold getSortedData getSortState
  rw [hc]
  simp [hne]

/-- The two-key lexicographic comparison is transitive in its
non-positive part when both comparators are sign-antisymmetric and
transitive. -/
lemma lexCompare_trans (f g : I → I → Int)
    (hfsign : ∀ a b, f b a = -f a b)
    (hftrans : ∀ a b c, f a b ≤ 0 → f b c ≤ 0 → f a c ≤ 0)
    (hgtrans : ∀ a b c, g a b ≤ 0 → g b c ≤ 0 → g a c ≤ 0) :
    ∀ a b c, (if f a b = 0 then g a b else f a b) ≤ 0 →
      (if f b c = 0 then g b c else f b c) ≤ 0 →
      (if f a c = 0 then g a c else f a c) ≤ 0 := by
  intro a b c hab hbc
  have sab := hfsign a b
  have sbc := hfsign b c
  have sac := hfsign a c
  by_cases h1 : f a b = 0 <;> by_cases h2 : f b c = 0
  · rw [if_pos h1] at hab
    rw [if_pos h2] at hbc
    have t1 := hftrans a b c (le_of_eq h1) (le_of_eq h2)
    have t2 := hftrans c b a (by omega) (by omega)
    have hac : f a c = 0 := by omega
    rw [if_pos hac]
    exact hgtrans a b c hab hbc
  · rw [if_pos h1] at hab
    rw [if_neg h2] at hbc
    have t1 := hftrans a b c (le_of_eq h1) hbc
    have hac : f a c ≠ 0 := by
      intro h0
      have t2 := hftrans c a b (by omega) (le_of_eq h1)
      omega
    rw [if_neg hac]
    exact t1
  · rw [if_neg h1] at hab
    rw [if_pos h2] at hbc
    have t1 := hftrans a b c hab (le_of_eq h2)
    have hac : f a c ≠ 0 := by
      intro h0
      have t2 := hftrans b c a (le_of_eq h2) (by omega)
      omega
    rw [if_neg hac]
    exact t1
  · rw [if_neg h1] at hab
    rw [if_neg h2] at hbc
    have t1 := hftrans a b c hab hbc
    have hac : f a c ≠ 0 := by
      intro h0
      have t2 := hftrans b c a hbc (by omega)
      omega
    rw [if_neg hac]
    exact t1

/-- The two-key lexicographic comparison is total in its non-positive
part when both comparators are sign-antisymmetric. -/
lemma lexCompare_total (f g : I → I → Int)
    (hfsign : ∀ a b, f b a = -f a b)
    (hgsign : ∀ a b, g b a = -g a b) :
    ∀ a b, (if f a b = 0 then g a b else f a b) ≤ 0
      ∨ (if f b a = 0 then g b a else f b a) ≤ 0 := by
  intro a b
  have sf := hfsign a b
  have sg := hgsign a b
  by_cases h : f a b = 0
  · have h2 : f b a = 0 := by omega
    rw [if_pos h, if_pos h2]
    omega
  · have h2 : f b a ≠ 0 := by omega
    rw [if_neg h, if_neg h2]
    omega

/-- C1: for an uncontrolled, non-empty sort state over consistent
comparators (sign-antisymmetric with transitive non-positive part, the
contract JavaScript's `Array.prototype.sort` places on comparators),
`getSortedData` is ordered lexicographically by the sort entries: a
single ascending entry yields output non-decreasing under that column's
comparator, a descending entry non-increasing (the comparison is
negated), and under the two-key state `[A asc, B asc]` the output is
non-decreasing under `A` with `A`-ties sub-ordered by `B`. -/
theorem getSortedData_ordered_by_sortState
    (val : I → String → JSVal) (f g : I → I → Int) (data : List I)
    (hfsign : ∀ a b, f b a = -f a b)
    (hftrans : ∀ a b c, f a b ≤ 0 → f b c ≤ 0 → f a c ≤ 0)
    (hgsign : ∀ a b, g b a = -g a b)
    (hgtrans : ∀ a b c, g a b ≤ 0 → g b c ≤ 0 → g a c ≤ 0) :
    (getSortedData val (twoColProps data f g) [⟨"A", .asc⟩]).Pairwise
      (fun a b => f a b ≤ 0)
    ∧ (getSortedData val (twoColProps data f g) [⟨"A", .desc⟩]).Pairwise
      (fun a b => 0 ≤ f a b)
    ∧ (getSortedData val (twoColProps data f g) [⟨"A", .asc⟩, ⟨"B", .asc⟩]).Pairwise
      (fun a b => f a b ≤ 0 ∧ (f a b = 0 → g a b ≤ 0)) := by
  refine ⟨?_, ?_, ?_⟩
  · rw [getSortedData_uncontrolled val (twoColProps data f g) [⟨"A", .asc⟩] rfl (by simp)]
    have hs := @List.sorted_mergeSort I
      (fun a b : I =>
        decide (compareItems val (twoColProps data f g).columns [⟨"A", .asc⟩] a b ≤ 0))
      (fun a b c hab hbc => by
        simp only [decide_eq_true_eq, twoColProps, compareItems_A_asc] at hab hbc ⊢
        exact hftrans a b c hab hbc)
      (fun a b => by
        simp only [Bool.or_eq_true, decide_eq_true_eq, twoColProps, compareItems_A_asc]
        have := hfsign a b
        omega)
      ((twoColProps data f g).data)
    refine hs.imp ?_
    intro a b h
    have h2 := of_decide_eq_true h
    rwa [show (twoColProps data f g).columns = [mkFnColumn "A" f, mkFnColumn "B" g] from rfl,
      compareItems_A_asc] at h2
  · rw [getSortedData_uncontrolled val (twoColProps data f g) [⟨"A", .desc⟩] rfl (by simp)]
    have hs := @List.sorted_mergeSort I
      (fun a b : I =>
        decide (compareItems val (twoColProps data f g).columns [⟨"A", .desc⟩] a b ≤ 0))
      (fun a b c hab hbc => by
        simp only [decide_eq_true_eq, twoColProps, compareItems_A_desc] at hab hbc ⊢
        have s1 := hfsign b c
        have s2 := hfsign a b
        have s3 := hfsign a c
        have t := hftrans c b a (by omega) (by omega)
        omega)
      (fun a b => by
        simp only [Bool.or_eq_true, decide_eq_true_eq, twoColProps, compareItems_A_desc]
        have := hfsign a b
        omega)
      ((twoColProps data f g).data)
    refine hs.imp ?_
    intro a b h
    have h2 := of_decide_eq_true h
    rw [show (twoColProps data f g).columns = [mkFnColumn "A" f, mkFnColumn "B" g] from rfl,
      compareItems_A_desc] at h2
    omega
  · rw [getSortedData_uncontrolled val (twoColProps data f g)
        [⟨"A", .asc⟩, ⟨"B", .asc⟩] rfl (by simp)]
    have hs := @List.sorted_mergeSort I
      (fun a b : I =>
        decide (compareItems val (twoColProps data f g).columns
          [⟨"A", .asc⟩, ⟨"B", .asc⟩] a b ≤ 0))
      (fun a b c hab hbc => by
        simp only [decide_eq_true_eq, twoColProps, compareItems_A_B] at hab hbc ⊢
        exact lexCompare_trans f g hfsign hftrans hgtrans a b c hab hbc)
      (fun a b => by
        simp only [Bool.or_eq_true, decide_eq_true_eq, twoColProps, compareItems_A_B]
        exact lexCompare_total f g hfsign hgsign a b)
      ((twoColProps data f g).data)
    refine hs.imp ?_
    intro a b h
    have h2 := of_decide_eq_true h
    rw [show (twoColProps data f g).columns = [mkFnColumn "A" f, mkFnColumn "B" g] from rfl,
      compareItems_A_B] at h2
    constructor
    · by_cases h0 : f a b = 0
      · exact le_of_eq h0
      · rwa [if_neg h0] at h2
    · intro h0
      rwa [if_pos h0] at h2

/-- Rank comparator on booleans: `false` before `true`. -/
def fB : Bool → Bool → Int :=
  fun a b => (if a then 1 else 0) - (if b then 1 else 0)

/-- Reverse rank comparator on booleans: `true` before `false`. -/
def gB : Bool → Bool → Int :=
  fun a b => (if b then 1 else 0) - (if a then 1 else 0)

/-- Witness for C1: sorting boolean rows by the concrete rank
comparator on column `A` yields non-decreasing output. -/
theorem getSortedData_ordered_by_sortState_witness :
    (getSortedData (fun (_ : Bool) _ => JSVal.nan)
        (twoColProps [true, false, true] fB gB) [⟨"A", .asc⟩]).Pairwise
      (fun a b => fB a b ≤ 0) :=
  (getSortedData_ordered_by_sortState (fun _ _ => JSVal.nan) fB gB
    [true, false, true] (by decide) (by decide) (by decide) (by decide)).1

/-- C6: a sort entry whose column declares no comparison capability is
skipped entirely — comparison proceeds with the remaining entries, with
no fallback applied for the skipped key — and when every entry ties or
is skipped the two rows compare equal. -/
theorem compareItems_skips_columns_without_sort
    (val : I → String → JSVal) (columns : List (TableColumnConfig I)) (a b : I) :
    (∀ (s : ColumnSortState) (rest : SortState),
      ((columns.find? (fun c => c.id == s.column)).bind
        (fun c => c.meta.bind (·.sort))) = none →
      compareItems val columns (s :: rest) a b = compareItems val columns rest a b)
    ∧ (∀ ss : SortState,
        (∀ s ∈ ss,
          ∀ cap, ((columns.find? (fun c => c.id == s.column)).bind
            (fun c => c.meta.bind (·.sort))) = some cap →
            capCompare val cap a b s.column = 0) →
        compareItems val columns ss a b = 0) := by
  constructor
  · intro s rest h
    simp only [compareItems]
    rw [h]
  · intro ss h
    induction ss with
    | nil => simp [compareItems]
    | cons s rest ih =>
      have hrest := ih (fun t ht => h t (List.mem_cons_of_mem _ ht))
      rcases hl : ((columns.find? (fun c => c.id == s.column)).bind
          (fun c => c.meta.bind (·.sort))) with _ | cap
      · simp only [compareItems]
        rw [hl]
        exact hrest
      · have h0 := h s (List.mem_cons_self _ _) cap hl
        simp only [compareItems]
        rw [hl]
        simp [h0, hrest]

/-- A column with no metadata at all, over rows that are value maps. -/
def colNoCmp : TableColumnConfig (String → JSVal) :=
  { id := "N", name := .str "N" }

/-- A row mapping every column to `1`. -/
def rowOne : String → JSVal := fun _ => JSVal.num 1

/-- A row mapping every column to `2`. -/
def rowTwo : String → JSVal := fun _ => JSVal.num 2

/-- Witness for C6: an entry for the comparator-less column `N` is
skipped even though the two rows differ on `N`, and the two rows
compare equal under the state holding only that entry. -/
theorem compareItems_skips_columns_without_sort_witness :
    compareItems (fun r s => r s) [colNoCmp] [⟨"N", .asc⟩] rowOne rowTwo
      = compareItems (fun r s => r s) [colNoCmp] [] rowOne rowTwo
    ∧ compareItems (fun r s => r s) [colNoCmp] [⟨"N", .asc⟩] rowOne rowTwo = 0 :=
  ⟨(compareItems_skips_columns_without_sort (fun r s => r s) [colNoCmp]
      rowOne rowTwo).1 ⟨"N", .asc⟩ [] rfl,
   (compareItems_skips_columns_without_sort (fun r s => r s) [colNoCmp]
      rowOne rowTwo).2 [⟨"N", .asc⟩] (by
        intro s hs
        rw [List.mem_singleton] at hs
        subst hs
        intro cap hcap
        exact Option.noConfusion hcap)⟩

/-- C9: uncontrolled with a non-empty sort state (and a consistent
chained comparator), `getSortedData` is the stable sort of a fresh copy
of the data — the input list value itself is untouched, the output is a
permutation of it, and two rows on which every key ties keep their
original relative order. -/
theorem getSortedData_uncontrolled_stable_permutation
    (val : I → String → JSVal) (p : ComponentProps I) (internalSort : SortState)
    (hc : isControlledState p = false) (hne : internalSort ≠ [])
    (htrans : ∀ a b c : I, compareItems val p.columns internalSort a b ≤ 0 →
      compareItems val p.columns internalSort b c ≤ 0 →
      compareItems val p.columns internalSort a c ≤ 0)
    (htotal : ∀ a b : I, compareItems val p.columns internalSort a b ≤ 0
      ∨ compareItems val p.columns internalSort b a ≤ 0) :
    getSortedData val p internalSort
      = p.data.mergeSort
          (fun a b => decide (compareItems val p.columns internalSort a b ≤ 0))
    ∧ (getSortedData val p internalSort).Perm p.data
    ∧ (∀ a b : I, [a, b].Sublist p.data →
        compareItems val p.columns internalSort a b = 0 →
        [a, b].Sublist (getSortedData val p internalSort)) := by
  have heq := getSortedData_uncontrolled val p internalSort hc hne
  refine ⟨heq, ?_, ?_⟩
  · rw [heq]
    exact List.mergeSort_perm _ _
  · intro a b hsub h0
    rw [heq]
    refine List.pair_sublist_mergeSort ?_ ?_ ?_ hsub
    · intro x y z hxy hyz
      simp only [decide_eq_true_eq] at hxy hyz ⊢
      exact htrans x y z hxy hyz
    · intro x y
      simp only [Bool.or_eq_true, decide_eq_true_eq]
      exact htotal x y
    · simp [h0]

/-- A flag-sorted column over boolean rows. -/
def colB : TableColumnConfig Bool :=
  { id := "B", name := .str "B", meta := some { sort := some .flag } }

/-- Boolean rows valued `1` for `true` and `0` for `false` on every
column. -/
def valB : Bool → String → JSVal :=
  fun r _ => if r then JSVal.num 1 else JSVal.num 0

/-- Witness for C9: a concrete uncontrolled sort over the flag column
realizes the stable-sort equation. -/
theorem getSortedData_uncontrolled_stable_permutation_witness :
    getSortedData valB
        ({ data := [true, false, true], columns := [colB] } : ComponentProps Bool)
        [⟨"B", .asc⟩]
      = ([true, false, true] : List Bool).mergeSort
          (fun a b => decide (compareItems valB [colB] [⟨"B", .asc⟩] a b ≤ 0)) :=
  (getSortedData_uncontrolled_stable_permutation valB
    { data := [true, false, true], columns := [colB] } [⟨"B", .asc⟩]
    rfl (by decide) (by decide) (by decide)).1

end WithTableSorting
